import Mathlib

/-!
Verification of the image-dataset indexing / loading / batching pipeline of the
notebook corpus (dogs-vs-cats CNN and ViT, GTSRB CNN, and for the training and
evaluation batching also the 20-newsgroup BERT notebook).

The filesystem layout `root/<split>/<class>/<file>` is modelled as a list of
class directories, each carrying its list of file names.  Path discovery
(`get_paths`), label-space construction (`label_names` / `label_to_index`),
label assignment (`get_labels`), on-demand image loading (`load_image`), and
the `tf.data` stages `shuffle` / `batch` / `prefetch` are translated from the
notebook sources.  The JPEG / PPM codec is external; it is modelled as an
environment mapping a path to the decoded image (`none` = decode failure).
-/

/-- A class subdirectory of one split: its name and the files it contains. -/
structure DirEntry where
  name : String
  files : List String
deriving DecidableEq

/-- One split directory `root/<split>/`: the class subdirectories it contains.
Plain files directly under the split directory are not represented: they match
neither the two-level glob `*/*` (they have no children) nor the directory
filter of the label-space glob `*/`. -/
structure SplitDir where
  dirs : List DirEntry
deriving DecidableEq

/-- An enumerated image path.  Of the full path string only the parent
directory name (used by `get_labels`) and the file name are relevant. -/
structure ImgPath where
  parent : String
  file : String
deriving DecidableEq

/-- Errors of the indexing pipeline: a split whose file count differs from the
hard-coded expectation (the `assert` of `get_paths`), and a sample whose parent
directory is missing from the label space (the `KeyError` of the
`label_to_index` dictionary lookup). -/
inductive PipelineError where
  | CountMismatch (found expected : Nat)
  | UnknownLabel (name : String)
deriving DecidableEq

/-- The glob `data_root.glob('*/*')`: every file of every class subdirectory,
exactly two levels deep, in enumeration order. -/
def globTwoLevels (s : SplitDir) : List ImgPath :=
  s.dirs.flatMap (fun d => d.files.map (fun f => ⟨d.name, f⟩))

/-- `get_paths(dataset)`: collect the two-level glob matches and assert that
their number equals the expected count `nimages[dataset]`. -/
def get_paths (expected : Nat) (s : SplitDir) : Except PipelineError (List ImgPath) :=
  let image_paths := globTwoLevels s
  if image_paths.length = expected then .ok image_paths
  else .error (.CountMismatch image_paths.length expected)

/-- `label_names = sorted(item.name for item in Path(datapath+'train').glob('*/')
if item.is_dir())`: the lexicographically sorted class-directory names of the
training split.  String order is compared on the character lists (the code
point order used by Python's `sorted`). -/
def label_names (train : SplitDir) : List String :=
  List.insertionSort (fun a b => a.data ≤ b.data) (train.dirs.map DirEntry.name)

/-- Lookup in `label_to_index = dict((name, index) for index, name in
enumerate(label_names))`, scanning with a running index: as in a Python dict
comprehension a later duplicate key overwrites an earlier one, so the tail is
preferred.  `none` models the `KeyError` of a missing key. -/
def lookupFrom (i : Nat) (s : String) : List String → Option Nat
  | [] => none
  | n :: ns =>
    match lookupFrom (i + 1) s ns with
    | some j => some j
    | none => if n == s then some i else none

/-- The dictionary lookup `label_to_index[name]`. -/
def label_to_index (names : List String) (s : String) : Option Nat :=
  lookupFrom 0 s names

/-- `get_labels(dataset)`: `[label_to_index[Path(path).parent.name] for path in
image_paths[dataset]]`, evaluated left to right, failing on the first path
whose parent directory is not a key of the dictionary. -/
def get_labels (names : List String) : List ImgPath → Except PipelineError (List Nat)
  | [] => .ok []
  | p :: ps =>
    match label_to_index names p.parent with
    | some i => (get_labels names ps).map (fun ls => i :: ls)
    | none => .error (.UnknownLabel p.parent)

/-- A decoded image: rows of pixels, each pixel a list of channel values. -/
structure Image where
  pixels : List (List (List Int))
deriving DecidableEq

/-- Number of pixel rows. -/
def Image.height (img : Image) : Nat := img.pixels.length

/-- Number of pixels in the first row. -/
def Image.width (img : Image) : Nat := (img.pixels.headD []).length

/-- The pixel at row `i`, column `j` (empty channel list out of range). -/
def samplePixel (img : Image) (i j : Nat) : List Int :=
  (img.pixels.getD i []).getD j []

/-- `tf.image.resize(image, [outH, outW])`: a deterministic, non-cropping
rescale producing exactly the target spatial dimensions; each output pixel is
sampled from the source position scaled by the width/height ratios. -/
def resizeImage (outH outW : Nat) (img : Image) : Image :=
  ⟨(List.range outH).map (fun i =>
     (List.range outW).map (fun j =>
       samplePixel img (i * img.height / outH) (j * img.width / outW)))⟩

/-- `INPUT_IMAGE_SIZE = [256, 256]` of the dogs-vs-cats CNN notebook. -/
def INPUT_IMAGE_SIZE_dvc : Nat × Nat := (256, 256)

/-- `INPUT_IMAGE_SIZE = [80, 80]` of the GTSRB notebook. -/
def INPUT_IMAGE_SIZE_gtsrb : Nat × Nat := (80, 80)

/-- `load_image(path, label)`: read and decode the file at `path` (`dec`, the
external codec environment; `none` = decode failure), resize the decoded image
to the fixed target size, and return it with the unchanged label. -/
def load_image (dec : ImgPath → Option Image) (size : Nat × Nat)
    (p : ImgPath) (label : Nat) : Option (Image × Nat) :=
  (dec p).map (fun img => (resizeImage size.1 size.2 img, label))

/-- `tf.data.Dataset.from_tensor_slices((image_paths[d], image_labels[d]))`:
the per-sample dataset pairing each path with its label. -/
def from_tensor_slices (paths : List ImgPath) (labels : List Nat) :
    List (ImgPath × Nat) :=
  paths.zip labels

/-- `dataset.prefetch(buffer_size=AUTOTUNE)`: overlaps decode with consumption
but yields exactly the same elements in the same order. -/
def prefetch (xs : List α) : List α := xs

/-- Chunking pass of `dataset.batch(bs, ...)`, fuelled for structural
recursion; `fuel ≥ xs.length` suffices for the fuel never to run out. -/
def chunkedGo (bs : Nat) : Nat → List α → List (List α)
  | _, [] => []
  | 0, _ :: _ => []
  | fuel + 1, x :: xs => (x :: xs).take bs :: chunkedGo bs fuel ((x :: xs).drop bs)

/-- `dataset.batch(bs, drop_remainder)`: split into consecutive chunks of `bs`
elements; with `drop_remainder` only the full chunks are kept. -/
def batchDataset (bs : Nat) (drop : Bool) (xs : List α) : List (List α) :=
  let chunks := chunkedGo bs xs.length xs
  if drop then chunks.filter (fun c => c.length == bs) else chunks

/-- One step run of `dataset.shuffle(bufSize)`, fuelled: keep a buffer, emit
the buffer slot selected by the next pseudo-random choice (`cs`, reduced
modulo the buffer size), and refill the slot from the remaining stream. -/
def shuffleGo : Nat → List Nat → List α → List α → List α
  | 0, _, _, rest => rest
  | _ + 1, _, [], rest => rest
  | fuel + 1, cs, b :: bf, rest =>
    let buf := b :: bf
    let i := cs.headD 0 % buf.length
    let x := buf.getD i b
    match rest with
    | [] => x :: shuffleGo fuel cs.tail (buf.eraseIdx i) []
    | r :: rs => x :: shuffleGo fuel cs.tail (buf.set i r) rs

/-- `dataset.shuffle(bufSize)`: buffered shuffle of the whole stream, driven by
the choice sequence `cs` (the pseudo-random draws of one epoch). -/
def shuffle (bufSize : Nat) (cs : List Nat) (xs : List α) : List α :=
  shuffleGo xs.length cs (xs.take bufSize) (xs.drop bufSize)

/-- `nimages = {'train':2000, 'validation':1000, 'test':22000}` of the
dogs-vs-cats notebooks. -/
def nimages : List (String × Nat) := [("train", 2000), ("validation", 1000), ("test", 22000)]

/-- `(nimages['train'], nimages['validation'], nimages['test']) =
(5535, 999, 12630)` of the GTSRB notebook. -/
def nimages_gtsrb : List (String × Nat) := [("train", 5535), ("validation", 999), ("test", 12630)]

/-- `BATCH_SIZE = 32` of the dogs-vs-cats CNN notebook. -/
def BATCH_SIZE_dvc : Nat := 32

/-- The literal buffer size of `train_dataset.shuffle(2000)` in the
dogs-vs-cats CNN notebook. -/
def dvc_shuffle_buffer : Nat := 2000

/-- `BATCH_SIZE = 50` of the GTSRB notebook. -/
def BATCH_SIZE_gtsrb : Nat := 50

/-- The literal buffer size of `train_dataset.shuffle(2000)` in the GTSRB
notebook. -/
def gtsrb_shuffle_buffer : Nat := 2000

/-- `BATCH_SIZE = 32` of the BERT notebook. -/
def BATCH_SIZE_bert : Nat := 32

/-- Dogs-vs-cats CNN `train_dataset`: map `load_image`, shuffle with buffer
2000, batch 32 dropping the remainder, prefetch. -/
def train_dataset (dec : ImgPath → Option Image) (cs : List Nat)
    (paths : List ImgPath) (labels : List Nat) :
    List (List (Option (Image × Nat))) :=
  prefetch (batchDataset BATCH_SIZE_dvc true
    (shuffle dvc_shuffle_buffer cs
      ((from_tensor_slices paths labels).map
        (fun s => load_image dec INPUT_IMAGE_SIZE_dvc s.1 s.2))))

/-- Dogs-vs-cats CNN `validation_dataset`: map, batch 32 dropping the
remainder, prefetch; no shuffling. -/
def validation_dataset (dec : ImgPath → Option Image)
    (paths : List ImgPath) (labels : List Nat) :
    List (List (Option (Image × Nat))) :=
  prefetch (batchDataset BATCH_SIZE_dvc true
    ((from_tensor_slices paths labels).map
      (fun s => load_image dec INPUT_IMAGE_SIZE_dvc s.1 s.2)))

/-- Dogs-vs-cats CNN `test_dataset`: map, batch 32 keeping the remainder,
prefetch; no shuffling. -/
def test_dataset (dec : ImgPath → Option Image)
    (paths : List ImgPath) (labels : List Nat) :
    List (List (Option (Image × Nat))) :=
  prefetch (batchDataset BATCH_SIZE_dvc false
    ((from_tensor_slices paths labels).map
      (fun s => load_image dec INPUT_IMAGE_SIZE_dvc s.1 s.2)))

/-- GTSRB `train_dataset`: map `load_image` (80×80 target), shuffle with
buffer 2000, batch 50 dropping the remainder, prefetch. -/
def train_dataset_gtsrb (dec : ImgPath → Option Image) (cs : List Nat)
    (paths : List ImgPath) (labels : List Nat) :
    List (List (Option (Image × Nat))) :=
  prefetch (batchDataset BATCH_SIZE_gtsrb true
    (shuffle gtsrb_shuffle_buffer cs
      ((from_tensor_slices paths labels).map
        (fun s => load_image dec INPUT_IMAGE_SIZE_gtsrb s.1 s.2))))

/-- GTSRB `test_dataset`: map, batch 50 keeping the remainder, prefetch. -/
def test_dataset_gtsrb (dec : ImgPath → Option Image)
    (paths : List ImgPath) (labels : List Nat) :
    List (List (Option (Image × Nat))) :=
  prefetch (batchDataset BATCH_SIZE_gtsrb false
    ((from_tensor_slices paths labels).map
      (fun s => load_image dec INPUT_IMAGE_SIZE_gtsrb s.1 s.2)))

/-- ViT notebook `dataset_train`: the pre-extracted features are shuffled with
a buffer of `len(dataset_train)` and batched with `drop_remainder=True`. -/
def dataset_train_vit (cs : List Nat) (xs : List α) : List (List α) :=
  batchDataset 32 true (shuffle xs.length cs xs)

/-- BERT notebook `dataset_train`: shuffled with a buffer of
`len(dataset_train)` and batched WITHOUT `drop_remainder`. -/
def dataset_train_bert (cs : List Nat) (xs : List α) : List (List α) :=
  batchDataset BATCH_SIZE_bert false (shuffle xs.length cs xs)

/-- A file list `[toString 0, ..., toString (n-1)]` used to build concrete
directory snapshots of a given size. -/
def mkFiles (n : Nat) : List String := (List.range n).map toString

/-! ### Basic facts about the indexer -/

theorem mkFiles_length (n : Nat) : (mkFiles n).length = n := by
  simp [mkFiles]

theorem globTwoLevels_length (s : SplitDir) :
    (globTwoLevels s).length = (s.dirs.map (fun d => d.files.length)).sum := by
  unfold globTwoLevels
  induction s.dirs with
  | nil => simp
  | cons d ds ih => simp [List.flatMap_cons, ih]

theorem get_paths_ok_iff (expected : Nat) (s : SplitDir) (ps : List ImgPath) :
    get_paths expected s = .ok ps ↔
      (globTwoLevels s).length = expected ∧ ps = globTwoLevels s := by
  unfold get_paths
  by_cases h : (globTwoLevels s).length = expected <;> simp [h, eq_comm]

theorem get_paths_error_iff (expected : Nat) (s : SplitDir) (e : PipelineError) :
    get_paths expected s = .error e ↔
      (globTwoLevels s).length ≠ expected ∧
        e = .CountMismatch (globTwoLevels s).length expected := by
  unfold get_paths
  by_cases h : (globTwoLevels s).length = expected <;> simp [h, eq_comm]

theorem lookupFrom_isSome_iff (s : String) (ns : List String) (i : Nat) :
    (lookupFrom i s ns).isSome ↔ s ∈ ns := by
  induction ns generalizing i with
  | nil => simp [lookupFrom]
  | cons n ns ih =>
    simp only [lookupFrom, List.mem_cons]
    rcases h : lookupFrom (i + 1) s ns with _ | j
    · have hmem : ¬ s ∈ ns := by
        rw [← ih (i + 1), h]
        simp
      by_cases hn : n == s
      · simp [hn, eq_comm, eq_of_beq hn]
      · have hns : ¬ (n = s) := by
          intro hc
          exact hn (by simp [hc])
        have hsn : ¬ (s = n) := fun hc => hns hc.symm
        simp [hn, hns, hsn, hmem]
    · have hmem : s ∈ ns := by
        rw [← ih (i + 1), h]
        rfl
      simp [hmem]

theorem lookupFrom_nodup (s : String) (ns : List String) (i : Nat)
    (hnd : ns.Nodup) (hmem : s ∈ ns) :
    lookupFrom i s ns = some (ns.indexOf s + i) := by
  induction ns generalizing i with
  | nil => cases hmem
  | cons n ns ih =>
    by_cases hs : s ∈ ns
    · have hne : n ≠ s := by
        intro hc
        exact (List.nodup_cons.mp hnd).1 (hc ▸ hs)
      have := ih (i + 1) (List.nodup_cons.mp hnd).2 hs
      simp only [lookupFrom, this]
      rw [List.indexOf_cons_ne _ (by simpa using hne)]
      congr 1
      omega
    · have hns : s = n := by
        rcases List.mem_cons.mp hmem with h | h
        · exact h
        · exact absurd h hs
      subst hns
      have hnone : lookupFrom (i + 1) s ns = none := by
        rcases h : lookupFrom (i + 1) s ns with _ | j
        · rfl
        · exact absurd ((lookupFrom_isSome_iff s ns (i + 1)).mp (by rw [h]; rfl)) hs
      simp [lookupFrom, hnone, List.indexOf_cons_self]

theorem label_to_index_isSome_iff (names : List String) (s : String) :
    (label_to_index names s).isSome ↔ s ∈ names :=
  lookupFrom_isSome_iff s names 0

theorem label_to_index_nodup (names : List String) (s : String)
    (hnd : names.Nodup) (hmem : s ∈ names) :
    label_to_index names s = some (names.indexOf s) := by
  simpa using lookupFrom_nodup s names 0 hnd hmem

theorem mem_label_names_iff (train : SplitDir) (s : String) :
    s ∈ label_names train ↔ s ∈ train.dirs.map DirEntry.name :=
  (List.perm_insertionSort (fun a b => a.data ≤ b.data)
    (train.dirs.map DirEntry.name)).mem_iff

theorem get_labels_ok_iff (names : List String) (paths : List ImgPath)
    (ls : List Nat) :
    get_labels names paths = .ok ls ↔
      (∀ p ∈ paths, p.parent ∈ names) ∧
        ls = paths.map (fun p => (label_to_index names p.parent).getD 0) := by
  induction paths generalizing ls with
  | nil => simp [get_labels]
  | cons p ps ih =>
    simp only [get_labels]
    rcases h : label_to_index names p.parent with _ | i
    · have : ¬ p.parent ∈ names := by
        rw [← label_to_index_isSome_iff, h]
        simp
      simp [this]
    · have hp : p.parent ∈ names := by
        rw [← label_to_index_isSome_iff, h]
        rfl
      constructor
      · intro hok
        rcases hok' : get_labels names ps with e | ls'
        · rw [hok'] at hok
          exact absurd hok (by simp [Except.map])
        · rw [hok'] at hok
          have hls : ls = i :: ls' := by
            simpa [Except.map] using hok.symm
          rcases (ih ls').mp hok' with ⟨hall, hval⟩
          refine ⟨?_, ?_⟩
          · intro q hq
            rcases List.mem_cons.mp hq with hq | hq
            · exact hq ▸ hp
            · exact hall q hq
          · simp [hls, hval, h]
      · rintro ⟨hall, hval⟩
        have : get_labels names ps =
            .ok (ps.map (fun q => (label_to_index names q.parent).getD 0)) :=
          (ih _).mpr ⟨fun q hq => hall q (List.mem_cons_of_mem p hq), rfl⟩
        rw [this]
        simp [Except.map, hval, h]

theorem get_labels_error_iff (names : List String) (paths : List ImgPath) :
    (∃ e, get_labels names paths = .error e) ↔ ∃ p ∈ paths, p.parent ∉ names := by
  induction paths with
  | nil => simp [get_labels]
  | cons p ps ih =>
    simp only [get_labels]
    rcases h : label_to_index names p.parent with _ | i
    · have : ¬ p.parent ∈ names := by
        rw [← label_to_index_isSome_iff, h]
        simp
      constructor
      · intro _
        exact ⟨p, List.mem_cons_self p ps, this⟩
      · intro _
        exact ⟨.UnknownLabel p.parent, rfl⟩
    · have hp : p.parent ∈ names := by
        rw [← label_to_index_isSome_iff, h]
        rfl
      constructor
      · rintro ⟨e, he⟩
        rcases hok : get_labels names ps with e' | ls'
        · rcases ih.mp ⟨e', hok⟩ with ⟨q, hq, hqn⟩
          exact ⟨q, List.mem_cons_of_mem p hq, hqn⟩
        · rw [hok] at he
          exact absurd he (by simp [Except.map])
      · rintro ⟨q, hq, hqn⟩
        rcases List.mem_cons.mp hq with hq' | hq'
        · exact absurd (hq' ▸ hp) hqn
        · rcases ih.mpr ⟨q, hq', hqn⟩ with ⟨e, he⟩
          exact ⟨e, by rw [he]; simp [Except.map]⟩

/-! ### Facts about batching -/

theorem chunkedGo_nil (bs fuel : Nat) : chunkedGo bs fuel ([] : List α) = [] := by
  cases fuel <;> rfl

theorem chunkedGo_eq_nil_iff (bs fuel : Nat) (xs : List α) (hf : xs.length ≤ fuel) :
    chunkedGo bs fuel xs = [] ↔ xs = [] := by
  cases xs with
  | nil => simp [chunkedGo_nil]
  | cons x xs =>
    cases fuel with
    | zero => simp at hf
    | succ fuel => simp [chunkedGo]

theorem chunkedGo_flatten (bs : Nat) (hbs : 0 < bs) :
    ∀ (fuel : Nat) (xs : List α), xs.length ≤ fuel →
      (chunkedGo bs fuel xs).flatten = xs := by
  intro fuel
  induction fuel with
  | zero =>
    intro xs hf
    cases xs with
    | nil => rfl
    | cons x xs => simp at hf
  | succ fuel ih =>
    intro xs hf
    cases xs with
    | nil => rfl
    | cons x xs =>
      simp only [chunkedGo, List.flatten_cons]
      rw [ih ((x :: xs).drop bs) (by simp only [List.length_drop] at *; omega)]
      exact List.take_append_drop bs (x :: xs)

theorem chunkedGo_filter_length (bs : Nat) (hbs : 0 < bs) :
    ∀ (fuel : Nat) (xs : List α), xs.length ≤ fuel →
      ((chunkedGo bs fuel xs).filter (fun c => c.length == bs)).length =
        xs.length / bs := by
  intro fuel
  induction fuel with
  | zero =>
    intro xs hf
    cases xs with
    | nil => simp [chunkedGo_nil]
    | cons x xs => simp at hf
  | succ fuel ih =>
    intro xs hf
    cases xs with
    | nil => simp [chunkedGo_nil]
    | cons x xs =>
      simp only [chunkedGo, List.filter_cons]
      by_cases hlen : bs ≤ (x :: xs).length
      · have htake : (((x :: xs).take bs).length == bs) = true := by
          simp only [List.length_take, beq_iff_eq]
          omega
        rw [if_pos htake, List.length_cons,
          ih ((x :: xs).drop bs) (by simp only [List.length_drop] at *; omega),
          List.length_drop, Nat.div_eq (x :: xs).length bs, if_pos ⟨hbs, hlen⟩]
      · have htake : ¬ (((x :: xs).take bs).length == bs) = true := by
          simp only [List.length_take, beq_iff_eq]
          omega
        rw [if_neg htake, List.drop_eq_nil_of_le (by omega), chunkedGo_nil]
        simp only [List.filter_nil, List.length_nil]
        rw [Nat.div_eq_of_lt (by omega)]

theorem chunkedGo_dropLast_all (bs : Nat) (hbs : 0 < bs) :
    ∀ (fuel : Nat) (xs : List α), xs.length ≤ fuel →
      ((chunkedGo bs fuel xs).dropLast.all (fun c => c.length == bs)) = true := by
  intro fuel
  induction fuel with
  | zero =>
    intro xs hf
    cases xs with
    | nil => rfl
    | cons x xs => simp at hf
  | succ fuel ih =>
    intro xs hf
    cases xs with
    | nil => rfl
    | cons x xs =>
      simp only [chunkedGo]
      by_cases hrest : (x :: xs).drop bs = []
      · rw [hrest, chunkedGo_nil]
        rfl
      · have hne : chunkedGo bs fuel ((x :: xs).drop bs) ≠ [] := by
          rw [Ne, chunkedGo_eq_nil_iff bs fuel _
            (by simp only [List.length_drop] at *; omega)]
          exact hrest
        rw [List.dropLast_cons_of_ne_nil hne]
        have hlen : bs < (x :: xs).length := by
          by_contra hc
          exact hrest (List.drop_eq_nil_of_le (by omega))
        have htake : (((x :: xs).take bs).length == bs) = true := by
          simp only [List.length_take, beq_iff_eq]
          omega
        simp only [List.all_cons, htake, Bool.true_and]
        exact ih ((x :: xs).drop bs) (by simp only [List.length_drop] at *; omega)

theorem chunkedGo_getLast (bs : Nat) (hbs : 0 < bs) :
    ∀ (fuel : Nat) (xs : List α), xs.length ≤ fuel → ¬ bs ∣ xs.length →
      ((chunkedGo bs fuel xs).getLast?).map List.length =
        some (xs.length % bs) := by
  intro fuel
  induction fuel with
  | zero =>
    intro xs hf hd
    cases xs with
    | nil => exact absurd (dvd_zero bs) (by simpa using hd)
    | cons x xs => simp at hf
  | succ fuel ih =>
    intro xs hf hd
    cases xs with
    | nil => exact absurd (dvd_zero bs) (by simpa using hd)
    | cons x xs =>
      simp only [chunkedGo]
      by_cases hrest : (x :: xs).drop bs = []
      · have hlt : (x :: xs).length < bs := by
          have hle : (x :: xs).length ≤ bs := by
            by_contra hc
            have : (List.drop bs (x :: xs)).length = 0 := by rw [hrest]; rfl
            simp only [List.length_drop] at this
            omega
          rcases Nat.lt_or_ge (x :: xs).length bs with h | h
          · exact h
          · exact absurd (Nat.le_antisymm hle h ▸ dvd_refl bs) hd
        rw [hrest, chunkedGo_nil, List.take_of_length_le (le_of_lt hlt)]
        simp only [List.getLast?_singleton, Option.map]
        exact congrArg some (Nat.mod_eq_of_lt hlt).symm
      · have hlen : bs < (x :: xs).length := by
          by_contra hc
          exact hrest (List.drop_eq_nil_of_le (by omega))
        have hd' : ¬ bs ∣ ((x :: xs).drop bs).length := by
          simp only [List.length_drop]
          intro hc
          exact hd (by
            have := Nat.dvd_add hc (dvd_refl bs)
            rwa [Nat.sub_add_cancel (le_of_lt hlen)] at this)
        have hrec := ih ((x :: xs).drop bs)
          (by simp only [List.length_drop] at *; omega) hd'
        rcases hcg : chunkedGo bs fuel ((x :: xs).drop bs) with _ | ⟨c, cs⟩
        · rw [hcg] at hrec
          simp at hrec
        · rw [hcg] at hrec
          rw [List.getLast?_cons_cons, hrec, List.length_drop,
            Nat.mod_eq_sub_mod (le_of_lt hlen)]

theorem chunkedGo_filter_of_dvd (bs : Nat) (hbs : 0 < bs) :
    ∀ (fuel : Nat) (xs : List α), xs.length ≤ fuel → bs ∣ xs.length →
      (chunkedGo bs fuel xs).filter (fun c => c.length == bs) =
        chunkedGo bs fuel xs := by
  intro fuel
  induction fuel with
  | zero =>
    intro xs hf _
    cases xs with
    | nil => rfl
    | cons x xs => simp at hf
  | succ fuel ih =>
    intro xs hf hd
    cases xs with
    | nil => rfl
    | cons x xs =>
      have hlen : bs ≤ (x :: xs).length := by
        rcases hd with ⟨k, hk⟩
        rcases k with _ | k
        · simp at hk
        · simp only [List.length_cons] at *
          calc bs ≤ bs * (k + 1) := Nat.le_mul_of_pos_right bs (Nat.succ_pos k)
          _ = xs.length + 1 := hk.symm
      simp only [chunkedGo, List.filter_cons]
      have htake : (((x :: xs).take bs).length == bs) = true := by
        simp only [List.length_take, beq_iff_eq]
        omega
      rw [if_pos htake, ih ((x :: xs).drop bs)
        (by simp only [List.length_drop] at *; omega)
        (by
          simp only [List.length_drop]
          exact Nat.dvd_sub hlen hd (dvd_refl bs))]

theorem sum_lengths_of_full (bs : Nat) (L : List (List α))
    (h : ∀ c ∈ L, c.length = bs) : (L.map List.length).sum = L.length * bs := by
  induction L with
  | nil => simp
  | cons c L ih =>
    simp only [List.map_cons, List.sum_cons, List.length_cons,
      h c (List.mem_cons_self c L),
      ih (fun c hc => h c (List.mem_cons_of_mem _ hc))]
    ring

theorem batchDataset_true_mem (bs : Nat) (xs : List α) (c : List α)
    (hc : c ∈ batchDataset bs true xs) : c.length = bs := by
  simp only [batchDataset, if_pos] at hc
  simpa using (List.mem_filter.mp hc).2

theorem batchDataset_true_all (bs : Nat) (xs : List α) :
    ((batchDataset bs true xs).all (fun c => c.length == bs)) = true := by
  rw [List.all_eq_true]
  intro c hc
  simpa using batchDataset_true_mem bs xs c hc

theorem batchDataset_true_length (bs : Nat) (hbs : 0 < bs) (xs : List α) :
    (batchDataset bs true xs).length = xs.length / bs := by
  simp only [batchDataset, if_pos]
  exact chunkedGo_filter_length bs hbs xs.length xs (le_refl _)

theorem batchDataset_true_flatten_length (bs : Nat) (hbs : 0 < bs) (xs : List α) :
    (batchDataset bs true xs).flatten.length = (xs.length / bs) * bs := by
  rw [List.length_flatten,
    sum_lengths_of_full bs _ (fun c hc => batchDataset_true_mem bs xs c hc),
    batchDataset_true_length bs hbs xs]

theorem batchDataset_true_flatten_of_dvd (bs : Nat) (hbs : 0 < bs) (xs : List α)
    (hd : bs ∣ xs.length) : (batchDataset bs true xs).flatten = xs := by
  simp only [batchDataset, if_pos]
  rw [chunkedGo_filter_of_dvd bs hbs xs.length xs (le_refl _) hd]
  exact chunkedGo_flatten bs hbs xs.length xs (le_refl _)

theorem batchDataset_false_flatten (bs : Nat) (hbs : 0 < bs) (xs : List α) :
    (batchDataset bs false xs).flatten = xs := by
  simp only [batchDataset, if_neg]
  exact chunkedGo_flatten bs hbs xs.length xs (le_refl _)

theorem batchDataset_false_getLast (bs : Nat) (hbs : 0 < bs) (xs : List α)
    (hd : ¬ bs ∣ xs.length) :
    ((batchDataset bs false xs).getLast?).map List.length =
      some (xs.length % bs) := by
  simp only [batchDataset, if_neg]
  exact chunkedGo_getLast bs hbs xs.length xs (le_refl _) hd

theorem batchDataset_false_dropLast_all (bs : Nat) (hbs : 0 < bs) (xs : List α) :
    ((batchDataset bs false xs).dropLast.all (fun c => c.length == bs)) = true := by
  simp only [batchDataset, if_neg]
  exact chunkedGo_dropLast_all bs hbs xs.length xs (le_refl _)

/-! ### Facts about the buffered shuffle -/

theorem perm_getD_cons_eraseIdx (l : List α) (i : Nat) (d : α) (h : i < l.length) :
    l.Perm (l.getD i d :: l.eraseIdx i) := by
  rw [List.getD_eq_getElem l d h, List.eraseIdx_eq_take_drop_succ]
  conv_lhs => rw [← List.take_append_drop i l, List.drop_eq_getElem_cons h]
  exact List.perm_middle

theorem set_perm_cons_eraseIdx (l : List α) (i : Nat) (a : α) (h : i < l.length) :
    (l.set i a).Perm (a :: l.eraseIdx i) := by
  rw [List.set_eq_take_cons_drop a h, List.eraseIdx_eq_take_drop_succ]
  exact List.perm_middle

theorem shuffleGo_perm :
    ∀ (fuel : Nat) (cs : List Nat) (buf rest : List α),
      buf.length + rest.length ≤ fuel →
      (shuffleGo fuel cs buf rest).Perm (buf ++ rest) := by
  intro fuel
  induction fuel with
  | zero =>
    intro cs buf rest h
    cases buf with
    | nil =>
      cases rest with
      | nil => exact List.Perm.refl _
      | cons r rs => simp at h
    | cons b bf => simp at h
  | succ fuel ih =>
    intro cs buf rest h
    cases buf with
    | nil =>
      simp only [shuffleGo, List.nil_append]
      exact List.Perm.refl rest
    | cons b bf =>
      have hi : cs.headD 0 % (b :: bf).length < (b :: bf).length :=
        Nat.mod_lt _ (by simp)
      cases rest with
      | nil =>
        simp only [shuffleGo]
        have hrec := ih cs.tail ((b :: bf).eraseIdx (cs.headD 0 % (b :: bf).length)) []
          (by
            rw [List.length_eraseIdx, if_pos hi]
            simp only [List.length_nil, List.length_cons] at *
            omega)
        simp only [List.append_nil] at hrec ⊢
        exact ((hrec.cons _).trans
          (perm_getD_cons_eraseIdx (b :: bf) _ b hi).symm)
      | cons r rs =>
        simp only [shuffleGo]
        have hrec := ih cs.tail ((b :: bf).set (cs.headD 0 % (b :: bf).length) r) rs
          (by
            rw [List.length_set]
            simp only [List.length_cons] at *
            omega)
        refine ((hrec.cons _).trans ?_)
        refine ((((set_perm_cons_eraseIdx (b :: bf) _ r hi).append_right rs).cons
          _).trans ?_)
        refine ((List.perm_middle.symm.cons _).trans ?_)
        exact (perm_getD_cons_eraseIdx (b :: bf) _ b hi).symm.append_right (r :: rs)

theorem shuffle_perm (bufSize : Nat) (cs : List Nat) (xs : List α) :
    (shuffle bufSize cs xs).Perm xs := by
  unfold shuffle
  have h := shuffleGo_perm xs.length cs (xs.take bufSize) (xs.drop bufSize)
    (by simp only [List.length_take, List.length_drop]; omega)
  rw [List.take_append_drop] at h
  exact h

theorem shuffle_length (bufSize : Nat) (cs : List Nat) (xs : List α) :
    (shuffle bufSize cs xs).length = xs.length :=
  (shuffle_perm bufSize cs xs).length_eq

theorem shuffleGo_nil_cs :
    ∀ (fuel : Nat) (buf : List α), buf.length ≤ fuel →
      shuffleGo fuel [] buf [] = buf := by
  intro fuel
  induction fuel with
  | zero =>
    intro buf h
    cases buf with
    | nil => rfl
    | cons b bf => simp at h
  | succ fuel ih =>
    intro buf h
    cases buf with
    | nil => rfl
    | cons b bf =>
      simp only [shuffleGo, List.headD_nil, List.tail_nil, Nat.zero_mod,
        List.getD_cons_zero, List.eraseIdx_cons_zero]
      rw [ih bf (by simp only [List.length_cons] at h; omega)]

theorem shuffle_nil_cs (bufSize : Nat) (xs : List α) (h : xs.length ≤ bufSize) :
    shuffle bufSize [] xs = xs := by
  unfold shuffle
  rw [List.take_of_length_le h, List.drop_eq_nil_of_le h]
  exact shuffleGo_nil_cs xs.length xs (le_refl _)

theorem shuffle_single_choice (bufSize c : Nat) (xs : List α)
    (hb : xs.length ≤ bufSize) (hc : c < xs.length) :
    shuffle bufSize [c] xs = xs.get ⟨c, hc⟩ :: xs.eraseIdx c := by
  unfold shuffle
  rw [List.take_of_length_le hb, List.drop_eq_nil_of_le hb]
  cases xs with
  | nil => simp at hc
  | cons x xs =>
    simp only [List.length_cons, shuffleGo, List.headD_cons, List.tail_cons]
    rw [Nat.mod_eq_of_lt (by simpa using hc)]
    rw [shuffleGo_nil_cs xs.length ((x :: xs).eraseIdx c) (by
      rw [List.length_eraseIdx, if_pos (by simpa using hc)]
      simp)]
    congr 1
    rw [List.getD_eq_getElem (x :: xs) x (by simpa using hc)]
    simp

/-! ### Facts about loading and resizing -/

theorem resizeImage_height (outH outW : Nat) (img : Image) :
    (resizeImage outH outW img).height = outH := by
  simp [resizeImage, Image.height]

theorem resizeImage_width (outH outW : Nat) (img : Image) (h : 0 < outH) :
    (resizeImage outH outW img).width = outW := by
  rcases outH with _ | k
  · simp at h
  · simp only [resizeImage, Image.width, List.range_succ_eq_map, List.map_cons,
      List.headD_cons]
    simp

theorem parent_mem_of_mem_glob (s : SplitDir) (p : ImgPath)
    (hp : p ∈ globTwoLevels s) : p.parent ∈ s.dirs.map DirEntry.name := by
  rcases List.mem_flatMap.mp hp with ⟨d, hd, hpd⟩
  rcases List.mem_map.mp hpd with ⟨f, _, rfl⟩
  exact List.mem_map.mpr ⟨d, hd, rfl⟩

/-! ### Pipeline-level statistics -/

theorem train_dataset_stats (dec : ImgPath → Option Image) (cs : List Nat)
    (paths : List ImgPath) (labels : List Nat) :
    (train_dataset dec cs paths labels).length
        = (from_tensor_slices paths labels).length / 32 ∧
      ((train_dataset dec cs paths labels).all fun b => b.length == 32) = true ∧
      (from_tensor_slices paths labels).length
          - (train_dataset dec cs paths labels).flatten.length
        = (from_tensor_slices paths labels).length % 32 := by
  unfold train_dataset prefetch
  have hlen : (shuffle dvc_shuffle_buffer cs
      ((from_tensor_slices paths labels).map
        (fun s => load_image dec INPUT_IMAGE_SIZE_dvc s.1 s.2))).length
      = (from_tensor_slices paths labels).length := by
    rw [shuffle_length, List.length_map]
  refine ⟨?_, ?_, ?_⟩
  · rw [batchDataset_true_length BATCH_SIZE_dvc (by decide), hlen]
    rfl
  · exact batchDataset_true_all BATCH_SIZE_dvc _
  · rw [batchDataset_true_flatten_length BATCH_SIZE_dvc (by decide), hlen]
    have : (from_tensor_slices paths labels).length / BATCH_SIZE_dvc * BATCH_SIZE_dvc
        = (from_tensor_slices paths labels).length / 32 * 32 := rfl
    rw [this]
    omega

theorem chunkedGo_filter_flatten (bs : Nat) (hbs : 0 < bs) :
    ∀ (fuel : Nat) (xs : List α), xs.length ≤ fuel →
      ((chunkedGo bs fuel xs).filter (fun c => c.length == bs)).flatten =
        xs.take (bs * (xs.length / bs)) := by
  intro fuel
  induction fuel with
  | zero =>
    intro xs hf
    cases xs with
    | nil => simp [chunkedGo_nil]
    | cons x xs => simp at hf
  | succ fuel ih =>
    intro xs hf
    cases xs with
    | nil => simp [chunkedGo_nil]
    | cons x xs =>
      simp only [chunkedGo, List.filter_cons]
      by_cases hlen : bs ≤ (x :: xs).length
      · have htake : (((x :: xs).take bs).length == bs) = true := by
          simp only [List.length_take, beq_iff_eq]
          omega
        rw [if_pos htake, List.flatten_cons,
          ih ((x :: xs).drop bs) (by simp only [List.length_drop] at *; omega),
          List.length_drop, Nat.div_eq (x :: xs).length bs, if_pos ⟨hbs, hlen⟩,
          Nat.mul_add, Nat.mul_one, Nat.add_comm (bs * (((x :: xs).length - bs) / bs)) bs,
          List.take_add]
      · have htake : ¬ (((x :: xs).take bs).length == bs) = true := by
          simp only [List.length_take, beq_iff_eq]
          omega
        rw [if_neg htake, List.drop_eq_nil_of_le (by omega), chunkedGo_nil,
          Nat.div_eq_of_lt (by omega)]
        simp

theorem batchDataset_true_flatten_take (bs : Nat) (hbs : 0 < bs) (xs : List α) :
    (batchDataset bs true xs).flatten = xs.take (bs * (xs.length / bs)) := by
  simp only [batchDataset, if_pos]
  exact chunkedGo_filter_flatten bs hbs xs.length xs (le_refl _)

/-! ### Concrete directory snapshots and helper environments -/

/-- A codec environment that decodes every path to an empty raster. -/
def trivialDec : ImgPath → Option Image := fun _ => some ⟨[]⟩

/-- Spec scenario: `train/dog/*` (1000 files) and `train/cat/*` (1000 files). -/
def dvcScenarioTrain : SplitDir :=
  ⟨[⟨"dog", mkFiles 1000⟩, ⟨"cat", mkFiles 1000⟩]⟩

/-- The enumerated training paths of the spec scenario. -/
def dvcScenarioPaths : List ImgPath := globTwoLevels dvcScenarioTrain

/-- The training labels of the spec scenario, as assigned by `get_labels`. -/
def dvcScenarioLabels : List Nat :=
  dvcScenarioPaths.map
    (fun p => (label_to_index (label_names dvcScenarioTrain) p.parent).getD 0)

/-- Spec scenario: a test split holding only 21999 files while 22000 are
expected (`test/dog/*` with 11000 files, `test/cat/*` with 10999). -/
def testScenario21999 : SplitDir :=
  ⟨[⟨"dog", mkFiles 11000⟩, ⟨"cat", mkFiles 10999⟩]⟩

/-- A GTSRB-sized training split: one class directory with 5535 files. -/
def gtsrbScenarioTrain : SplitDir := ⟨[⟨"00000", mkFiles 5535⟩]⟩

/-- The straight-line script of the dogs-vs-cats notebook restricted to the
test split: index the test split against `nimages['test']`, build the label
space from the training split, assign labels, and only then construct the
batched test sequence.  The `Except` bind mirrors the notebook aborting at the
first failed assert / KeyError, before any later stage runs. -/
def dvc_test_script (train test : SplitDir) (dec : ImgPath → Option Image) :
    Except PipelineError (List (List (Option (Image × Nat)))) := do
  let test_paths ← get_paths ((nimages.lookup "test").getD 0) test
  let test_labels ← get_labels (label_names train) test_paths
  pure (test_dataset dec test_paths test_labels)

theorem dvcScenarioPaths_length : dvcScenarioPaths.length = 2000 := by
  rw [dvcScenarioPaths, globTwoLevels_length]
  simp [dvcScenarioTrain, mkFiles_length]

theorem dvcScenarioLabels_length : dvcScenarioLabels.length = 2000 := by
  rw [dvcScenarioLabels, List.length_map, dvcScenarioPaths_length]

theorem testScenario21999_length : (globTwoLevels testScenario21999).length = 21999 := by
  rw [globTwoLevels_length]
  simp [testScenario21999, mkFiles_length]

theorem gtsrbScenarioTrain_length : (globTwoLevels gtsrbScenarioTrain).length = 5535 := by
  rw [globTwoLevels_length]
  simp [gtsrbScenarioTrain, mkFiles_length]

theorem get_labels_error_shape (names : List String) (paths : List ImgPath)
    (e : PipelineError) (h : get_labels names paths = .error e) :
    ∃ n, e = .UnknownLabel n ∧ n ∉ names := by
  induction paths with
  | nil => exact absurd h (by simp [get_labels])
  | cons p ps ih =>
    simp only [get_labels] at h
    rcases hl : label_to_index names p.parent with _ | i
    · rw [hl] at h
      refine ⟨p.parent, ?_, ?_⟩
      · simpa using h.symm
      · rw [← label_to_index_isSome_iff, hl]
        simp
    · rw [hl] at h
      rcases hok : get_labels names ps with e' | ls'
      · rw [hok] at h
        have : e' = e := by simpa [Except.map] using h
        exact ih (this ▸ hok)
      · rw [hok] at h
        exact absurd h (by simp [Except.map])

/-! ### Claims -/

/-- C1 (amended): in the dogs-vs-cats scenario — `train/dog/*` with 1000
files, `train/cat/*` with 1000 files, expected count 2000 — indexing
succeeds, the label space is `["cat", "dog"]` (so cat ↦ 0, dog ↦ 1), and for
every codec environment and every shuffle draw the drop-remainder training
sequence with batch size 32 yields exactly 62 batches of exactly 32 samples
each, dropping exactly 16 samples (2000 mod 32), not 4. -/
theorem C1_dvc_scenario_batches (dec : ImgPath → Option Image) (cs : List Nat) :
    get_paths 2000 dvcScenarioTrain = .ok dvcScenarioPaths ∧
    label_names dvcScenarioTrain = ["cat", "dog"] ∧
    (train_dataset dec cs dvcScenarioPaths dvcScenarioLabels).length = 62 ∧
    ((train_dataset dec cs dvcScenarioPaths dvcScenarioLabels).all
      fun b => b.length == 32) = true ∧
    (from_tensor_slices dvcScenarioPaths dvcScenarioLabels).length
      - (train_dataset dec cs dvcScenarioPaths dvcScenarioLabels).flatten.length
      = 16 := by
  have hn : (from_tensor_slices dvcScenarioPaths dvcScenarioLabels).length = 2000 := by
    rw [from_tensor_slices, List.length_zip, dvcScenarioPaths_length,
      dvcScenarioLabels_length]
    decide
  obtain ⟨h1, h2, h3⟩ := train_dataset_stats dec cs dvcScenarioPaths dvcScenarioLabels
  refine ⟨?_, by decide, ?_, h2, ?_⟩
  · exact (get_paths_ok_iff _ _ _).mpr ⟨dvcScenarioPaths_length, rfl⟩
  · rw [h1, hn]
  · rw [h3, hn]

/-- C1 counterexample: in the very scenario of the claim, the number of
samples dropped by the drop-remainder training batching is 16 and not 4. -/
theorem C1_cex_dropped_is_16_not_4 :
    (from_tensor_slices dvcScenarioPaths dvcScenarioLabels).length
        - (train_dataset trivialDec [] dvcScenarioPaths dvcScenarioLabels).flatten.length
      = 16 ∧
    ¬ ((from_tensor_slices dvcScenarioPaths dvcScenarioLabels).length
        - (train_dataset trivialDec [] dvcScenarioPaths dvcScenarioLabels).flatten.length
      = 4) := by
  have hn : (from_tensor_slices dvcScenarioPaths dvcScenarioLabels).length = 2000 := by
    rw [from_tensor_slices, List.length_zip, dvcScenarioPaths_length,
      dvcScenarioLabels_length]
    decide
  obtain ⟨_, _, h3⟩ := train_dataset_stats trivialDec [] dvcScenarioPaths dvcScenarioLabels
  rw [h3, hn]
  exact ⟨rfl, by decide⟩

/-- C2: `get_paths` succeeds exactly when the two-level enumeration count
matches the hard-coded expectation (returning all matched paths), fails with
`CountMismatch found expected` exactly when it differs, and on a test split
with 21999 files against the expected 22000 the notebook's test pipeline
aborts with `CountMismatch 21999 22000` before any batch is produced. -/
theorem C2_count_mismatch_contract :
    (∀ (expected : Nat) (s : SplitDir) (ps : List ImgPath),
      get_paths expected s = .ok ps ↔
        (globTwoLevels s).length = expected ∧ ps = globTwoLevels s) ∧
    (∀ (expected : Nat) (s : SplitDir) (e : PipelineError),
      get_paths expected s = .error e ↔
        (globTwoLevels s).length ≠ expected ∧
          e = .CountMismatch (globTwoLevels s).length expected) ∧
    (∀ (train : SplitDir) (dec : ImgPath → Option Image),
      dvc_test_script train testScenario21999 dec =
        .error (.CountMismatch 21999 22000)) := by
  refine ⟨get_paths_ok_iff, get_paths_error_iff, fun train dec => ?_⟩
  have herr : get_paths ((nimages.lookup "test").getD 0) testScenario21999 =
      .error (.CountMismatch 21999 22000) := by
    have hl : (nimages.lookup "test").getD 0 = 22000 := rfl
    rw [hl]
    apply (get_paths_error_iff _ _ _).mpr
    rw [testScenario21999_length]
    exact ⟨by decide, rfl⟩
  unfold dvc_test_script
  rw [herr]
  rfl

/-- C3: with distinct training class-directory names, label assignment
succeeds with the list of positions of each sample's parent-directory name in
the sorted label space exactly when every parent name is in the label space;
it fails exactly when some parent name is missing; and every failure is an
`UnknownLabel` error carrying a name absent from the label space. -/
theorem C3_label_space (train : SplitDir)
    (hnd : (train.dirs.map DirEntry.name).Nodup) (paths : List ImgPath) :
    (get_labels (label_names train) paths =
        .ok (paths.map (fun p => (label_names train).indexOf p.parent)) ↔
      ∀ p ∈ paths, p.parent ∈ label_names train) ∧
    ((∃ e, get_labels (label_names train) paths = .error e) ↔
      ∃ p ∈ paths, p.parent ∉ label_names train) ∧
    (∀ e, get_labels (label_names train) paths = .error e →
      ∃ n, e = .UnknownLabel n ∧ n ∉ label_names train) := by
  have hnd' : (label_names train).Nodup := by
    unfold label_names
    exact ((List.perm_insertionSort _ _).nodup_iff).mpr hnd
  refine ⟨?_, get_labels_error_iff _ _, fun e he => get_labels_error_shape _ _ e he⟩
  constructor
  · intro hok
    exact ((get_labels_ok_iff _ _ _).mp hok).1
  · intro hall
    apply (get_labels_ok_iff _ _ _).mpr
    refine ⟨hall, ?_⟩
    apply List.map_congr_left
    intro p hp
    rw [label_to_index_nodup _ _ hnd' (hall p hp)]
    rfl

/-- C3 witness: the label-space contract instantiated at a concrete training
split with class directories `b` and `a` (sorted label space `["a", "b"]`). -/
theorem C3_witness :
    (get_labels (label_names ⟨[⟨"b", ["f0"]⟩, ⟨"a", ["f1"]⟩]⟩)
          (globTwoLevels ⟨[⟨"b", ["f0"]⟩, ⟨"a", ["f1"]⟩]⟩) =
        .ok ((globTwoLevels ⟨[⟨"b", ["f0"]⟩, ⟨"a", ["f1"]⟩]⟩).map
          (fun p => (label_names ⟨[⟨"b", ["f0"]⟩, ⟨"a", ["f1"]⟩]⟩).indexOf p.parent)) ↔
      ∀ p ∈ globTwoLevels ⟨[⟨"b", ["f0"]⟩, ⟨"a", ["f1"]⟩]⟩,
        p.parent ∈ label_names ⟨[⟨"b", ["f0"]⟩, ⟨"a", ["f1"]⟩]⟩) ∧
    ((∃ e, get_labels (label_names ⟨[⟨"b", ["f0"]⟩, ⟨"a", ["f1"]⟩]⟩)
          (globTwoLevels ⟨[⟨"b", ["f0"]⟩, ⟨"a", ["f1"]⟩]⟩) = .error e) ↔
      ∃ p ∈ globTwoLevels ⟨[⟨"b", ["f0"]⟩, ⟨"a", ["f1"]⟩]⟩,
        p.parent ∉ label_names ⟨[⟨"b", ["f0"]⟩, ⟨"a", ["f1"]⟩]⟩) ∧
    (∀ e, get_labels (label_names ⟨[⟨"b", ["f0"]⟩, ⟨"a", ["f1"]⟩]⟩)
          (globTwoLevels ⟨[⟨"b", ["f0"]⟩, ⟨"a", ["f1"]⟩]⟩) = .error e →
      ∃ n, e = .UnknownLabel n ∧ n ∉ label_names ⟨[⟨"b", ["f0"]⟩, ⟨"a", ["f1"]⟩]⟩) :=
  C3_label_space ⟨[⟨"b", ["f0"]⟩, ⟨"a", ["f1"]⟩]⟩ (by decide)
    (globTwoLevels ⟨[⟨"b", ["f0"]⟩, ⟨"a", ["f1"]⟩]⟩)

/-- C4 (amended): any training split accepted by the dogs-vs-cats indexer
(`nimages['train'] = 2000`) is fully covered by that notebook's shuffle
buffer of 2000; the GTSRB notebook however reuses the literal buffer 2000
although its training split is expected to hold `nimages['train'] = 5535`
samples, so there the buffer is strictly smaller than the split and only a
windowed shuffle is performed. -/
theorem C4_amended_shuffle_buffer (s : SplitDir) (paths : List ImgPath)
    (h : get_paths ((nimages.lookup "train").getD 0) s = .ok paths) :
    paths.length ≤ dvc_shuffle_buffer ∧
      gtsrb_shuffle_buffer < (nimages_gtsrb.lookup "train").getD 0 := by
  obtain ⟨hlen, rfl⟩ := (get_paths_ok_iff _ _ _).mp h
  refine ⟨?_, by decide⟩
  rw [hlen]
  decide

/-- C4 witness: the shuffle-buffer comparison at the concrete dogs-vs-cats
scenario training split. -/
theorem C4_witness :
    dvcScenarioPaths.length ≤ dvc_shuffle_buffer ∧
      gtsrb_shuffle_buffer < (nimages_gtsrb.lookup "train").getD 0 :=
  C4_amended_shuffle_buffer dvcScenarioTrain dvcScenarioPaths
    ((get_paths_ok_iff _ _ _).mpr ⟨dvcScenarioPaths_length, rfl⟩)

/-- C4 counterexample: a GTSRB-sized training split (one class directory with
5535 files) passes indexing against the expected count 5535, yet the GTSRB
training pipeline shuffles it with the literal buffer 2000 < 5535, so the
buffer does not cover the split. -/
theorem C4_cex_gtsrb_buffer :
    get_paths ((nimages_gtsrb.lookup "train").getD 0) gtsrbScenarioTrain =
      .ok (globTwoLevels gtsrbScenarioTrain) ∧
    (globTwoLevels gtsrbScenarioTrain).length = 5535 ∧
    gtsrb_shuffle_buffer < 5535 := by
  refine ⟨(get_paths_ok_iff _ _ _).mpr ⟨?_, rfl⟩, gtsrbScenarioTrain_length, by decide⟩
  rw [gtsrbScenarioTrain_length]
  rfl

/-- C5 (amended): the image-pipeline training sequences (dogs-vs-cats CNN,
GTSRB CNN, dogs-vs-cats ViT) batch with `drop_remainder=True`, so every batch
they yield has exactly the fixed batch size (32, 50, 32 respectively); the
BERT notebook's training sequence batches WITHOUT `drop_remainder`, so it
keeps every sample of every epoch, partial final batch included. -/
theorem C5_amended_drop_remainder :
    (∀ (dec : ImgPath → Option Image) (cs : List Nat) (paths : List ImgPath)
        (labels : List Nat),
      ((train_dataset dec cs paths labels).all fun b => b.length == 32) = true) ∧
    (∀ (dec : ImgPath → Option Image) (cs : List Nat) (paths : List ImgPath)
        (labels : List Nat),
      ((train_dataset_gtsrb dec cs paths labels).all fun b => b.length == 50) = true) ∧
    (∀ (α : Type) (cs : List Nat) (xs : List α),
      ((dataset_train_vit cs xs).all fun b => b.length == 32) = true) ∧
    (∀ (α : Type) (cs : List Nat) (xs : List α),
      (dataset_train_bert cs xs).flatten.Perm xs) := by
  refine ⟨fun dec cs paths labels => ?_, fun dec cs paths labels => ?_,
    fun α cs xs => ?_, fun α cs xs => ?_⟩
  · exact batchDataset_true_all BATCH_SIZE_dvc _
  · exact batchDataset_true_all BATCH_SIZE_gtsrb _
  · exact batchDataset_true_all 32 _
  · unfold dataset_train_bert
    rw [batchDataset_false_flatten BATCH_SIZE_bert (by decide)]
    exact shuffle_perm _ _ _

/-- C5 counterexample: the BERT notebook's training sequence over 33 samples
yields a final partial batch of 1 sample instead of dropping it. -/
theorem C5_cex_bert_partial_batch :
    ((dataset_train_bert [] (List.range 33)).getLast?).map List.length = some 1 ∧
      (1 : Nat) ≠ BATCH_SIZE_bert :=
  ⟨by decide, by decide⟩

/-- C6: one iteration over a batched test sequence yields exactly the loaded
samples in enumeration order (no shuffling), every batch except possibly the
last is full, and when the split size is not a multiple of the batch size the
final batch holds exactly `size mod batch_size` samples; stated for the
dogs-vs-cats (batch 32) and GTSRB (batch 50) test pipelines. -/
theorem C6_test_exact_coverage (dec : ImgPath → Option Image)
    (paths : List ImgPath) (labels : List Nat) :
    ((test_dataset dec paths labels).flatten =
        (from_tensor_slices paths labels).map
          (fun s => load_image dec INPUT_IMAGE_SIZE_dvc s.1 s.2) ∧
      ((test_dataset dec paths labels).dropLast.all fun b => b.length == 32) = true ∧
      (¬ 32 ∣ (from_tensor_slices paths labels).length →
        ((test_dataset dec paths labels).getLast?).map List.length =
          some ((from_tensor_slices paths labels).length % 32))) ∧
    ((test_dataset_gtsrb dec paths labels).flatten =
        (from_tensor_slices paths labels).map
          (fun s => load_image dec INPUT_IMAGE_SIZE_gtsrb s.1 s.2) ∧
      ((test_dataset_gtsrb dec paths labels).dropLast.all fun b => b.length == 50) = true ∧
      (¬ 50 ∣ (from_tensor_slices paths labels).length →
        ((test_dataset_gtsrb dec paths labels).getLast?).map List.length =
          some ((from_tensor_slices paths labels).length % 50))) := by
  unfold test_dataset test_dataset_gtsrb prefetch
  refine ⟨⟨?_, ?_, fun hd => ?_⟩, ?_, ?_, fun hd => ?_⟩
  · exact batchDataset_false_flatten BATCH_SIZE_dvc (by decide) _
  · exact batchDataset_false_dropLast_all BATCH_SIZE_dvc (by decide) _
  · rw [batchDataset_false_getLast BATCH_SIZE_dvc (by decide) _
      (by rw [List.length_map]; exact hd), List.length_map]
    rfl
  · exact batchDataset_false_flatten BATCH_SIZE_gtsrb (by decide) _
  · exact batchDataset_false_dropLast_all BATCH_SIZE_gtsrb (by decide) _
  · rw [batchDataset_false_getLast BATCH_SIZE_gtsrb (by decide) _
      (by rw [List.length_map]; exact hd), List.length_map]
    rfl

/-- C6 witness: the final-partial-batch law of the dogs-vs-cats test pipeline
instantiated at a concrete 3-sample test split (3 mod 32 = 3). -/
theorem C6_witness :
    ((test_dataset trivialDec [⟨"a", "0"⟩, ⟨"a", "1"⟩, ⟨"a", "2"⟩]
        [0, 1, 2]).getLast?).map List.length =
      some ((from_tensor_slices [⟨"a", "0"⟩, ⟨"a", "1"⟩, ⟨"a", "2"⟩]
        [0, 1, 2]).length % 32) :=
  (C6_test_exact_coverage trivialDec _ _).1.2.2 (by decide)

/-- C7: a successful load (read, decode, resize) always yields an image of
exactly the configured target resolution — `INPUT_IMAGE_SIZE` is 256×256 for
the dogs-vs-cats CNN notebook and 80×80 for GTSRB — regardless of the decoded
image's dimensions, together with the unchanged label. -/
theorem C7_load_fixed_resolution (dec : ImgPath → Option Image)
    (size : Nat × Nat) (p : ImgPath) (l : Nat) (out : Image × Nat)
    (hsize : 0 < size.1) (h : load_image dec size p l = some out) :
    out.1.height = size.1 ∧ out.1.width = size.2 ∧ out.2 = l ∧
      INPUT_IMAGE_SIZE_dvc = (256, 256) ∧ INPUT_IMAGE_SIZE_gtsrb = (80, 80) := by
  rcases hdec : dec p with _ | img
  · rw [load_image, hdec] at h
    exact absurd h (by simp)
  · rw [load_image, hdec] at h
    obtain rfl : (resizeImage size.1 size.2 img, l) = out := Option.some.inj h
    exact ⟨resizeImage_height _ _ _, resizeImage_width _ _ _ hsize, rfl, rfl, rfl⟩

/-- C7 witness: loading a concrete path through the dogs-vs-cats
configuration yields a 256×256 image with the unchanged label 7. -/
theorem C7_witness :
    (resizeImage INPUT_IMAGE_SIZE_dvc.1 INPUT_IMAGE_SIZE_dvc.2 ⟨[]⟩,
        7).1.height = INPUT_IMAGE_SIZE_dvc.1 ∧
      (resizeImage INPUT_IMAGE_SIZE_dvc.1 INPUT_IMAGE_SIZE_dvc.2 ⟨[]⟩,
        7).1.width = INPUT_IMAGE_SIZE_dvc.2 ∧
      (resizeImage INPUT_IMAGE_SIZE_dvc.1 INPUT_IMAGE_SIZE_dvc.2 ⟨[]⟩,
        (7 : Nat)).2 = 7 ∧
      INPUT_IMAGE_SIZE_dvc = (256, 256) ∧ INPUT_IMAGE_SIZE_gtsrb = (80, 80) :=
  C7_load_fixed_resolution trivialDec INPUT_IMAGE_SIZE_dvc ⟨"a", "f"⟩ 7
    (resizeImage INPUT_IMAGE_SIZE_dvc.1 INPUT_IMAGE_SIZE_dvc.2 ⟨[]⟩, 7)
    (by decide) rfl

/-- The mapped per-sample stream of the dogs-vs-cats training pipeline (the
dataset after `map(load_image)`, before shuffling and batching). -/
def dvc_mapped (dec : ImgPath → Option Image) (paths : List ImgPath)
    (labels : List Nat) : List (Option (Image × Nat)) :=
  (from_tensor_slices paths labels).map
    (fun s => load_image dec INPUT_IMAGE_SIZE_dvc s.1 s.2)

theorem train_dataset_eq (dec : ImgPath → Option Image) (cs : List Nat)
    (paths : List ImgPath) (labels : List Nat) :
    train_dataset dec cs paths labels =
      batchDataset BATCH_SIZE_dvc true
        (shuffle dvc_shuffle_buffer cs (dvc_mapped dec paths labels)) := rfl

/-- A 33-sample training split used to compare two epochs. -/
def epochPaths : List ImgPath := (List.range 33).map (fun i => ⟨"c", toString i⟩)

/-- The labels of the 33-sample training split. -/
def epochLabels : List Nat := List.range 33

/-- Projection of a loaded sample to its label. -/
def projLabel : Option (Image × Nat) → Option Nat := Option.map Prod.snd

theorem epochS_length : (dvc_mapped trivialDec epochPaths epochLabels).length = 33 := by
  unfold dvc_mapped from_tensor_slices epochPaths epochLabels
  rw [List.length_map, List.length_zip, List.length_map, List.length_range]
  decide

theorem epochS_proj :
    (dvc_mapped trivialDec epochPaths epochLabels).map projLabel =
      (List.range 33).map some := by
  unfold dvc_mapped
  rw [List.map_map]
  have h1 : (projLabel ∘ fun (s : ImgPath × Nat) =>
      load_image trivialDec INPUT_IMAGE_SIZE_dvc s.1 s.2) = (some ∘ Prod.snd) := rfl
  rw [h1, ← List.map_map, from_tensor_slices,
    List.map_snd_zip _ _ (by
      unfold epochPaths epochLabels
      simp)]
  rfl

theorem epochA_proj :
    (train_dataset trivialDec [] epochPaths epochLabels).flatten.map projLabel =
      (List.range 32).map some := by decide

theorem epochB_proj :
    (train_dataset trivialDec [32] epochPaths epochLabels).flatten.map projLabel =
      some 32 :: (List.range 31).map some := by decide

/-- C8 (amended): for the dogs-vs-cats training pipeline, any two epoch
iterations (any two shuffle draws) produce pre-batching streams that are
permutations of each other (the shuffle itself loses no sample); the batched
epochs yield equally many samples, all in full batches of 32; and whenever 32
divides the sample count — so no partial batch exists — the two epochs yield
identical multisets of samples.  When 32 does not divide the count, the two
epochs each drop their own final partial batch and the yielded multisets can
differ (see the counterexample). -/
theorem C8_amended_epoch_multisets (dec : ImgPath → Option Image)
    (cs1 cs2 : List Nat) (paths : List ImgPath) (labels : List Nat) :
    (shuffle dvc_shuffle_buffer cs1 (dvc_mapped dec paths labels)).Perm
        (shuffle dvc_shuffle_buffer cs2 (dvc_mapped dec paths labels)) ∧
    (train_dataset dec cs1 paths labels).flatten.length =
      (train_dataset dec cs2 paths labels).flatten.length ∧
    ((train_dataset dec cs1 paths labels).all fun b => b.length == 32) = true ∧
    (32 ∣ (dvc_mapped dec paths labels).length →
      (train_dataset dec cs1 paths labels).flatten.Perm
        (train_dataset dec cs2 paths labels).flatten) := by
  refine ⟨?_, ?_, ?_, fun hdvd => ?_⟩
  · exact (shuffle_perm _ _ _).trans (shuffle_perm _ _ _).symm
  · rw [train_dataset_eq, train_dataset_eq,
      batchDataset_true_flatten_length BATCH_SIZE_dvc (by decide),
      batchDataset_true_flatten_length BATCH_SIZE_dvc (by decide),
      shuffle_length, shuffle_length]
  · exact (train_dataset_stats dec cs1 paths labels).2.1
  · rw [train_dataset_eq, train_dataset_eq,
      batchDataset_true_flatten_of_dvd BATCH_SIZE_dvc (by decide) _
        (by rw [shuffle_length]; exact hdvd),
      batchDataset_true_flatten_of_dvd BATCH_SIZE_dvc (by decide) _
        (by rw [shuffle_length]; exact hdvd)]
    exact (shuffle_perm _ _ _).trans (shuffle_perm _ _ _).symm

/-- C8 witness: with 32 samples (32 divides the count) two different shuffle
draws yield identical multisets of loaded samples. -/
theorem C8_witness :
    (train_dataset trivialDec [] (List.replicate 32 ⟨"a", "f"⟩)
        (List.replicate 32 0)).flatten.Perm
      (train_dataset trivialDec [7] (List.replicate 32 ⟨"a", "f"⟩)
        (List.replicate 32 0)).flatten :=
  (C8_amended_epoch_multisets trivialDec [] [7] (List.replicate 32 ⟨"a", "f"⟩)
    (List.replicate 32 0)).2.2.2 (by decide)

/-- C8 counterexample: over a 33-sample training split the epoch driven by
the empty choice stream drops the sample labelled 32 while the epoch driven
by the choice stream `[32]` drops the sample labelled 31, so the two epoch
iterations yield different multisets of samples. -/
theorem C8_cex_different_samples_dropped :
    ¬ ((train_dataset trivialDec [] epochPaths epochLabels).flatten.Perm
        ((train_dataset trivialDec [32] epochPaths epochLabels).flatten)) := by
  intro h
  have h2 := h.map projLabel
  rw [epochA_proj, epochB_proj] at h2
  exact absurd h2 (by decide)

/-- C9: the loader is a pure function of the file content at the path — two
invocations on the same path (same directory snapshot) return bit-identical
resized output, any two environments agreeing on the path's content load
identically, and mapping the loader over a dataset holding the same sample
twice recomputes the same result at both occurrences with no cache involved. -/
theorem C9_loader_deterministic (dec1 dec2 : ImgPath → Option Image)
    (size : Nat × Nat) (p : ImgPath) (l : Nat) (h : dec1 p = dec2 p) :
    load_image dec1 size p l = load_image dec2 size p l ∧
    ([(p, l), (p, l)].map (fun s => load_image dec1 size s.1 s.2) =
      [load_image dec1 size p l, load_image dec1 size p l]) := by
  constructor
  · unfold load_image
    rw [h]
  · rfl

/-- C9 witness: the loader determinism at a concrete path, label and codec
environment. -/
theorem C9_witness :
    load_image trivialDec INPUT_IMAGE_SIZE_dvc ⟨"a", "f"⟩ 3 =
        load_image trivialDec INPUT_IMAGE_SIZE_dvc ⟨"a", "f"⟩ 3 ∧
      ([(⟨"a", "f"⟩, 3), (⟨"a", "f"⟩, 3)].map
          (fun s => load_image trivialDec INPUT_IMAGE_SIZE_dvc s.1 s.2) =
        [load_image trivialDec INPUT_IMAGE_SIZE_dvc ⟨"a", "f"⟩ 3,
          load_image trivialDec INPUT_IMAGE_SIZE_dvc ⟨"a", "f"⟩ 3]) :=
  C9_loader_deterministic trivialDec trivialDec INPUT_IMAGE_SIZE_dvc
    ⟨"a", "f"⟩ 3 rfl

/-- C10: for the training split the failing branch of `get_labels` is
unreachable — every path matched by the two-level glob has as parent a class
subdirectory of the training split, and the label space is built from exactly
those subdirectory names, so labelling the training enumeration always
succeeds, whatever the directory snapshot. -/
theorem C10_train_labels_never_fail (train : SplitDir) :
    ∃ ls, get_labels (label_names train) (globTwoLevels train) = .ok ls :=
  ⟨(globTwoLevels train).map
      (fun p => (label_to_index (label_names train) p.parent).getD 0),
    (get_labels_ok_iff _ _ _).mpr
      ⟨fun p hp => (mem_label_names_iff train p.parent).mpr
        (parent_mem_of_mem_glob train p hp), rfl⟩⟩
